import Mathlib

/-!
Shallow embedding of the spiking-neural-network core of `snn/model_struct.py`
(`SpikyNode`, `SpikyLayer`, `SpikyNet`) together with the `RingBuffer` it
imports, and proofs about the behaviour of `compute`, `duty_cycle` and
`set_weights`.

Python floats are modelled as rationals (`ℚ`); the `-inf` resting sentinel of
a neuron's activation level is modelled as `none : Option ℚ` (so decay on the
sentinel is a no-op and a finite level never equals the sentinel, as for IEEE
`-inf`).  Fallible operations (dictionary lookup in `SpikyNet.set_weights`,
division by zero in `duty_cycle`) return `Except String`.
-/

namespace SNN

/-- Modelled from the spec: the file `snn/ring_buffer.py` defining `RingBuffer`
is not part of the sources, only its importer `model_struct.py` is.  Per the
spec, a `RingBuffer` is a fixed-capacity circular log: `add` appends while the
buffer is not yet full and otherwise overwrites the logically oldest entry, so
the buffer always holds exactly the most recent `min(C, total_adds)` events;
`get` returns the stored entries oldest-first; `length` returns the stored
count (not the capacity). -/
structure RingBuffer where
  capacity : Nat
  data : List Nat
deriving DecidableEq, Repr

/-- Modelled from the spec: `RingBuffer.add` appends one entry, dropping the
oldest entry once the buffer is full. -/
def RingBuffer.add (b : RingBuffer) (value : Nat) : RingBuffer :=
  if b.data.length < b.capacity then { b with data := b.data ++ [value] }
  else { b with data := b.data.tail ++ [value] }

/-- Modelled from the spec: stored entries in chronological order. -/
def RingBuffer.get (b : RingBuffer) : List Nat := b.data

/-- Modelled from the spec: current stored length. -/
def RingBuffer.length (b : RingBuffer) : Nat := b.data.length

/-- `SPIKE_DECAY = 0.1` from `model_struct.py`. -/
def SPIKE_DECAY : ℚ := 1/10

/-- `MAX_FIRELOG_SIZE = 200` from `model_struct.py`. -/
def MAX_FIRELOG_SIZE : Nat := 200

/-- State of a `SpikyNode`: the weight vector `_weights` (last entry is the
bias), the activation `level` (`none` models the `-np.inf` resting sentinel),
the firing history `firelog`, and the unbounded `levels_log`. -/
structure SpikyNode where
  weights : List ℚ
  level : Option ℚ
  firelog : RingBuffer
  levels_log : List ℚ
deriving DecidableEq, Repr

/-- `SpikyNode.get_bias`: `self._weights[-1]`.  The Python weight vector always
has length `size + 1 ≥ 1`; the default `0` for an empty list is never used by
`compute`, which only reads the bias after checking the width. -/
def SpikyNode.get_bias (n : SpikyNode) : ℚ := n.weights.getLastD 0

/-- The weighted sum `sum(inputs[i] * self._weights[i] for i in range(len(inputs)))`.
`zipWith` truncates at the shorter list; in `compute` the weight list is exactly
one element (the bias) longer than `inputs`, so the bias is excluded. -/
def weightedSum (inputs weights : List ℚ) : ℚ :=
  (List.zipWith (fun x w => x * w) inputs weights).sum

/-- The decay step `self.level *= (1 - SPIKE_DECAY)`: a no-op on the resting
sentinel (as `-inf * 0.9 = -inf`), multiplication by `1 - SPIKE_DECAY`
otherwise. -/
def SpikyNode.decayedLevel (n : SpikyNode) : Option ℚ :=
  n.level.map (fun l => l * (1 - SPIKE_DECAY))

/-- The integration step: `if self.level == -np.inf: self.level = weighted_sum
else: self.level += weighted_sum`. -/
def integrate (level1 : Option ℚ) (ws : ℚ) : ℚ :=
  match level1 with
  | none => ws
  | some l => l + ws

/-- `SpikyNode.compute`: decay the level, validate input width (on mismatch
return `(0.0, level)` without touching the logs), integrate the weighted sum,
append to the levels log, then fire (record `1`, reset to the sentinel) when
the new level reaches the bias, else record `0`.  Returns the Python return
value paired with the updated neuron state. -/
def SpikyNode.compute (n : SpikyNode) (inputs : List ℚ) :
    (ℚ × Option ℚ) × SpikyNode :=
  let level1 := n.decayedLevel
  if inputs.length + 1 ≠ n.weights.length then
    ((0, level1), { n with level := level1 })
  else
    let newLevel := integrate level1 (weightedSum inputs n.weights)
    let n1 : SpikyNode :=
      { n with level := some newLevel, levels_log := n.levels_log ++ [newLevel] }
    if n.get_bias ≤ newLevel then
      ((1, none), { n1 with level := none, firelog := n1.firelog.add 1 })
    else
      ((0, some newLevel), { n1 with firelog := n1.firelog.add 0 })

/-- `SpikyNode.duty_cycle` with an explicit window argument; `none` models
Python `None`.  When the (clamped) window is `0` the Python code divides by
zero, modelled as `Except.error`. -/
def SpikyNode.duty_cycle (n : SpikyNode) (window : Option Nat) : Except String ℚ :=
  if n.firelog.length = 0 then .ok 0
  else
    let w : Nat := match window with
      | none => n.firelog.length
      | some w => if n.firelog.length < w then n.firelog.length else w
    if w = 0 then .error "ZeroDivisionError"
    else .ok (((n.firelog.get.drop (n.firelog.length - w)).sum : ℚ) / (w : ℚ))

/-- `SpikyNode.duty_cycle` called without a `window` argument: the Python
default is `window=100`. -/
def SpikyNode.duty_cycle_default (n : SpikyNode) : Except String ℚ :=
  n.duty_cycle (some 100)

/-- The transformation Python's `SpikyNode.set_weights` applies to an accepted
weight vector: `self._weights[:-1] = list(map(lambda x: abs(x), self._weights[:-1]))`,
i.e. every entry except the last (the bias) is replaced by its absolute value. -/
def absAllButLast (l : List ℚ) : List ℚ :=
  l.dropLast.map (fun x => |x|) ++ l.drop (l.length - 1)

/-- `SpikyNode.set_weights`: on length mismatch print a diagnostic and leave
the weights unchanged; otherwise replace the weights by the incoming vector
with all entries but the bias coerced to absolute value. -/
def SpikyNode.set_weights (n : SpikyNode) (input_weights : List ℚ) : SpikyNode :=
  if input_weights.length ≠ n.weights.length then n
  else { n with weights := absAllButLast input_weights }

/-- A `SpikyLayer` is its ordered list of nodes. -/
structure SpikyLayer where
  nodes : List SpikyNode
deriving DecidableEq, Repr

/-- `SpikyLayer.compute`: feed the same inputs to every node in order; return
the parallel lists of firing outputs and levels, with the updated layer. -/
def SpikyLayer.compute (layer : SpikyLayer) (inputs : List ℚ) :
    (List ℚ × List (Option ℚ)) × SpikyLayer :=
  let results := layer.nodes.map (fun node => node.compute inputs)
  ((results.map (fun r => r.1.1), results.map (fun r => r.1.2)),
    ⟨results.map (fun r => r.2)⟩)

/-- `SpikyLayer.set_weights`: no-op on an empty layer; otherwise split the flat
vector into chunks of `len(input_weights) // len(self.nodes)` and hand chunk
`i` (`input_weights[start:end]`) to node `i`'s `set_weights`. -/
def SpikyLayer.set_weights (layer : SpikyLayer) (input_weights : List ℚ) :
    SpikyLayer :=
  if layer.nodes.isEmpty then layer
  else
    let weights_per_node := input_weights.length / layer.nodes.length
    ⟨layer.nodes.enum.map (fun p =>
      p.2.set_weights ((input_weights.drop (p.1 * weights_per_node)).take
        weights_per_node))⟩

/-- `SpikyLayer.duty_cycles`: per-node duty cycle, in node order. -/
def SpikyLayer.duty_cycles (layer : SpikyLayer) (window : Option Nat) :
    List (Except String ℚ) :=
  layer.nodes.map (fun node => node.duty_cycle window)

/-- A `SpikyNet` is a hidden layer and an output layer. -/
structure SpikyNet where
  hidden_layer : SpikyLayer
  output_layer : SpikyLayer
deriving DecidableEq, Repr

/-- `SpikyNet.compute`: feed the inputs through the hidden layer, feed its
firing outputs to the output layer, and return the output layer's outputs and
levels.  `firelog_window` is accepted but unused, as in the source. -/
def SpikyNet.compute (net : SpikyNet) (inputs : List ℚ) (firelog_window : Nat) :
    (List ℚ × List (Option ℚ)) × SpikyNet :=
  let hres := net.hidden_layer.compute inputs
  let ores := net.output_layer.compute hres.1.1
  ((ores.1.1, ores.1.2), ⟨hres.2, ores.2⟩)

/-- The genome passed to `SpikyNet.set_weights`: a Python dict from strings to
flat weight vectors, modelled as an association list with first-match lookup. -/
structure Genome where
  entries : List (String × List ℚ)
deriving DecidableEq, Repr

/-- Dictionary lookup `input_weights[key]`; `none` models a `KeyError`. -/
def Genome.find (g : Genome) (key : String) : Option (List ℚ) :=
  (g.entries.find? (fun p => p.1 == key)).map (fun p => p.2)

/-- `SpikyNet.set_weights`: look up `'hidden_layer'` (a missing key raises
`KeyError` before anything is assigned), set the hidden layer, then look up
`'output_layer'` (a missing key raises `KeyError` after the hidden layer was
already assigned), and set the output layer. -/
def SpikyNet.set_weights (net : SpikyNet) (g : Genome) : Except String SpikyNet :=
  match g.find "hidden_layer" with
  | none => .error "KeyError: hidden_layer"
  | some h =>
    let net1 : SpikyNet := { net with hidden_layer := net.hidden_layer.set_weights h }
    match g.find "output_layer" with
    | none => .error "KeyError: output_layer"
    | some o => .ok { net1 with output_layer := net1.output_layer.set_weights o }

/-! ### Helper lemmas -/

/-- A dot product against an all-zero input vector is zero. -/
theorem weightedSum_of_zero_inputs (inputs weights : List ℚ)
    (h : ∀ x ∈ inputs, x = 0) : weightedSum inputs weights = 0 := by
  induction inputs generalizing weights with
  | nil => simp [weightedSum]
  | cons a l ih =>
    cases weights with
    | nil => simp [weightedSum]
    | cons w ws =>
      have ha : a = 0 := h a (by simp)
      have hl : ∀ x ∈ l, x = 0 := fun x hx => h x (by simp [hx])
      have := ih ws hl
      simp [weightedSum, List.zipWith] at this ⊢
      simp [ha, this]

/-- `RingBuffer.add` always appends the new value at the newest position. -/
theorem RingBuffer.get_add_getLast? (b : RingBuffer) (v : Nat) :
    (b.add v).get.getLast? = some v := by
  unfold RingBuffer.add RingBuffer.get
  split <;> simp

/-- The sum of a 0/1-valued list counts its ones. -/
theorem sum_eq_count_one (l : List Nat) (h : ∀ x ∈ l, x = 0 ∨ x = 1) :
    l.sum = l.count 1 := by
  induction l with
  | nil => simp
  | cons a t ih =>
    have ht : ∀ x ∈ t, x = 0 ∨ x = 1 := fun x hx => h x (by simp [hx])
    rcases h a (by simp) with ha | ha <;>
      simp [List.count_cons, ih ht, ha, Nat.add_comm]

/-- `absAllButLast` preserves the length of the vector. -/
theorem absAllButLast_length (v : List ℚ) : (absAllButLast v).length = v.length := by
  simp [absAllButLast]
  try omega

/-- Below the last position, `absAllButLast` takes absolute values pointwise. -/
theorem absAllButLast_getElem?_of_lt (v : List ℚ) (i : Nat) (h : i + 1 < v.length) :
    (absAllButLast v)[i]? = (v[i]?).map (fun x => |x|) := by
  unfold absAllButLast
  rw [List.getElem?_append_left (by simp; omega)]
  rw [List.getElem?_map]
  rw [List.dropLast_eq_take, List.getElem?_take_of_lt (by omega)]

/-- At the last position (the bias), `absAllButLast` keeps the entry as is. -/
theorem absAllButLast_getElem?_last (v : List ℚ) :
    (absAllButLast v)[v.length - 1]? = v[v.length - 1]? := by
  cases v with
  | nil => rfl
  | cons a t =>
    unfold absAllButLast
    rw [List.getElem?_append_right (by simp)]
    simp [List.getElem?_drop]

/-! ### Concrete fixtures -/

/-- A neuron with two weights (one input weight and the bias) currently
charging at level `1`. -/
def c1Node : SpikyNode := ⟨[1, 1], some 1, ⟨200, []⟩, []⟩

/-- A resting neuron with one input weight and bias `-1`. -/
def c2Node : SpikyNode := ⟨[1, -1], none, ⟨200, []⟩, []⟩

/-- The hidden neuron of the end-to-end scenario: weights `[1, 1, 0.5]`. -/
def c4HiddenNode : SpikyNode := ⟨[1, 1, 1/2], none, ⟨200, []⟩, []⟩

/-- The output neuron of the end-to-end scenario: weights `[1, 0.5]`. -/
def c4OutputNode : SpikyNode := ⟨[1, 1/2], none, ⟨200, []⟩, []⟩

/-- The 2-input, 1-hidden, 1-output network of the end-to-end scenario. -/
def c4Net : SpikyNet := ⟨⟨[c4HiddenNode]⟩, ⟨[c4OutputNode]⟩⟩

/-- A neuron with a two-entry firing history, for the `window = 0` scenario. -/
def c10Node : SpikyNode := ⟨[1, 1], none, ⟨200, [0, 1]⟩, []⟩

/-! ### Claim C1 -/

/-- C1 counterexample: the claim says a width-mismatched `compute` call returns
the unmodified current level, but the decay step runs before the width check,
so a charging neuron at level `1` gets level `9/10` back (and stored). -/
theorem C1_counterexample :
    ([] : List ℚ).length + 1 ≠ c1Node.weights.length ∧
    (c1Node.compute []).1.2 ≠ c1Node.level ∧
    (c1Node.compute []).2.level ≠ c1Node.level := by
  norm_num [c1Node, SpikyNode.compute, SpikyNode.decayedLevel, SPIKE_DECAY]

/-- C1 (amended): on input-width mismatch, `compute` raises nothing and
returns `(0, level)` where `level` is the current level after the decay step
(the decay is applied and stored even on the mismatch path); the firing
history, levels log and weights are left unmodified. -/
theorem C1_mismatch (n : SpikyNode) (inputs : List ℚ)
    (h : inputs.length + 1 ≠ n.weights.length) :
    (n.compute inputs).1 = (0, n.level.map (fun l => l * (1 - SPIKE_DECAY))) ∧
    (n.compute inputs).2.level = n.level.map (fun l => l * (1 - SPIKE_DECAY)) ∧
    (n.compute inputs).2.firelog = n.firelog ∧
    (n.compute inputs).2.levels_log = n.levels_log ∧
    (n.compute inputs).2.weights = n.weights := by
  simp [SpikyNode.compute, SpikyNode.decayedLevel, h]

/-- C1 witness: the amended theorem instantiated at `c1Node` with the
zero-length input. -/
theorem C1_witness :
    (([] : List ℚ).length + 1 ≠ c1Node.weights.length) ∧
    (c1Node.compute []).1 = (0, some (9/10)) ∧
    (c1Node.compute []).2.firelog = c1Node.firelog ∧
    (c1Node.compute []).2.levels_log = c1Node.levels_log := by
  have h := C1_mismatch c1Node [] (by decide)
  refine ⟨by decide, ?_, h.2.2.1, h.2.2.2.1⟩
  rw [h.1]
  norm_num [c1Node, SPIKE_DECAY]

/-! ### Claim C2 -/

/-- C2 counterexample: a resting neuron with bias `-1 < 0` fed the all-zero
input of correct width ends with its level at the rest sentinel (it fires and
resets), refuting "level stays at the rest sentinel only if the bias is ≥ 0". -/
theorem C2_counterexample :
    c2Node.level = none ∧
    [(0 : ℚ)] = List.replicate 1 (0 : ℚ) ∧
    [(0 : ℚ)].length + 1 = c2Node.weights.length ∧
    (c2Node.compute [0]).2.level = none ∧
    ¬ (0 ≤ c2Node.get_bias) := by
  norm_num [c2Node, SpikyNode.compute, SpikyNode.decayedLevel, integrate,
    SpikyNode.get_bias, weightedSum, SPIKE_DECAY]

/-- C2 (amended): for a resting neuron fed an all-zero input of correct width,
the level ends at the rest sentinel if and only if the bias is ≤ 0 (the
weighted sum is 0, the new level is 0, and the neuron fires — resetting to the
sentinel — exactly when `0 ≥ bias`). -/
theorem C2_rest_zero_input (n : SpikyNode) (inputs : List ℚ)
    (hrest : n.level = none) (hzero : ∀ x ∈ inputs, x = 0)
    (hlen : inputs.length + 1 = n.weights.length) :
    (n.compute inputs).2.level = none ↔ n.get_bias ≤ 0 := by
  have hne : ¬ (inputs.length + 1 ≠ n.weights.length) := by simp [hlen]
  have hws : weightedSum inputs n.weights = 0 :=
    weightedSum_of_zero_inputs _ _ hzero
  simp only [SpikyNode.compute, SpikyNode.decayedLevel, integrate, hrest,
    Option.map_none', hws, if_neg hne]
  by_cases hb : n.get_bias ≤ 0 <;> simp [hb]

/-- C2 witness: the amended theorem instantiated at `c2Node` and input `[0]`,
where the bias is `-1 ≤ 0` and the level indeed ends at the sentinel. -/
theorem C2_witness :
    (c2Node.compute [0]).2.level = none ↔ c2Node.get_bias ≤ 0 :=
  C2_rest_zero_input c2Node [0] (by decide) (by decide) (by decide)

/-! ### Claim C4 -/

/-- C4: the end-to-end scenario.  The hidden neuron's weighted sum on `[1, 1]`
is `2`; starting from rest its level becomes `2 ≥ 0.5`, so the hidden layer
fires `[1.0]` with level reset to the sentinel and `2` logged; the output
neuron's weighted sum on `[1.0]` is `1 ≥ 0.5`, so it fires too; the network
returns `([1.0], [resting_sentinel])`. -/
theorem C4_end_to_end :
    weightedSum [1, 1] c4HiddenNode.weights = 2 ∧
    (c4Net.hidden_layer.compute [1, 1]).1 = ([1], [none]) ∧
    ((c4Net.compute [1, 1] 100).2.hidden_layer.nodes.map
      (fun nd => nd.level)) = [none] ∧
    ((c4Net.compute [1, 1] 100).2.hidden_layer.nodes.map
      (fun nd => nd.levels_log)) = [[2]] ∧
    weightedSum [1] c4OutputNode.weights = 1 ∧
    (c4Net.compute [1, 1] 100).1 = ([1], [none]) := by
  norm_num [c4Net, c4HiddenNode, c4OutputNode, SpikyNet.compute, SpikyLayer.compute,
    SpikyNode.compute, SpikyNode.decayedLevel, integrate, SpikyNode.get_bias,
    weightedSum, SPIKE_DECAY]

/-! ### Claim C5 -/

/-- A neuron with one input weight and bias `2`, charging at level `1`. -/
def c5Node : SpikyNode := ⟨[1, 2], some 1, ⟨200, []⟩, []⟩

/-- C5: for a charging neuron with finite level `L` fed a correct-width
all-zero input, one `compute` call yields the new level `L × (1 − decay_rate)`
with `decay_rate = SPIKE_DECAY = 1/10`, provided the threshold is not crossed
(the decayed level stays below the bias). -/
theorem C5_decay_law (n : SpikyNode) (L : ℚ) (inputs : List ℚ)
    (hlevel : n.level = some L)
    (hzero : ∀ x ∈ inputs, x = 0)
    (hlen : inputs.length + 1 = n.weights.length)
    (hnofire : L * (1 - SPIKE_DECAY) < n.get_bias) :
    SPIKE_DECAY = 1/10 ∧
    (n.compute inputs).1.2 = some (L * (1 - SPIKE_DECAY)) ∧
    (n.compute inputs).2.level = some (L * (1 - SPIKE_DECAY)) := by
  have hne : ¬ (inputs.length + 1 ≠ n.weights.length) := by simp [hlen]
  have hws : weightedSum inputs n.weights = 0 :=
    weightedSum_of_zero_inputs _ _ hzero
  have hnb : ¬ (n.get_bias ≤ L * (1 - SPIKE_DECAY)) := not_le.mpr hnofire
  refine ⟨rfl, ?_, ?_⟩ <;>
    simp [SpikyNode.compute, SpikyNode.decayedLevel, integrate, hlevel, hws,
      if_neg hne, hnb]

/-- C5 witness: the decay law instantiated at `c5Node` (level `1`, bias `2`)
with the all-zero input `[0]`: the level becomes `9/10`. -/
theorem C5_witness :
    (c5Node.compute [0]).2.level = some (1 * (1 - SPIKE_DECAY)) :=
  (C5_decay_law c5Node 1 [0] rfl (by decide) (by decide)
    (by norm_num [c5Node, SpikyNode.get_bias, SPIKE_DECAY])).2.2

/-! ### Claim C6 -/

/-- A resting neuron with one input weight `1` and bias `1/2`. -/
def c6Node : SpikyNode := ⟨[1, 1/2], none, ⟨200, []⟩, []⟩

/-- C6: whenever `compute` returns firing output `1.0`, the neuron's level
afterwards is the resting sentinel and the most recent entry of its firing
history is `1`. -/
theorem C6_fire_resets (n : SpikyNode) (inputs : List ℚ)
    (hfired : (n.compute inputs).1.1 = 1) :
    (n.compute inputs).2.level = none ∧
    (n.compute inputs).2.firelog.get.getLast? = some 1 := by
  by_cases hw : inputs.length + 1 ≠ n.weights.length
  · simp [SpikyNode.compute, hw] at hfired
  · by_cases hb : n.get_bias ≤ integrate n.decayedLevel (weightedSum inputs n.weights)
    · simp [SpikyNode.compute, hw, hb, RingBuffer.get_add_getLast?]
    · simp [SpikyNode.compute, hw, hb] at hfired

/-- C6 witness: `c6Node` fed `[1]` fires (weighted sum `1 ≥ 1/2`), ends at the
sentinel, and its firing history ends in `1`. -/
theorem C6_witness :
    (c6Node.compute [1]).1.1 = 1 ∧
    (c6Node.compute [1]).2.level = none ∧
    (c6Node.compute [1]).2.firelog.get.getLast? = some 1 := by
  have hfired : (c6Node.compute [1]).1.1 = 1 := by
    norm_num [c6Node, SpikyNode.compute, SpikyNode.decayedLevel, integrate,
      SpikyNode.get_bias, weightedSum, SPIKE_DECAY]
  have h := C6_fire_resets c6Node [1] hfired
  exact ⟨hfired, h.1, h.2⟩

/-! ### Claim C10 -/

/-- C10: on a non-empty firing history, `duty_cycle` with `window = 0` hits
the division by zero: `0` is not clamped (it is not greater than the history
length), and `sum(...) / 0` raises. -/
theorem C10_window_zero (n : SpikyNode) (h : n.firelog.length ≠ 0) :
    n.duty_cycle (some 0) = .error "ZeroDivisionError" := by
  simp [SpikyNode.duty_cycle, h]

/-- C10 witness: the theorem instantiated at a neuron with history `[0, 1]`. -/
theorem C10_witness :
    c10Node.firelog.length ≠ 0 ∧
    c10Node.duty_cycle (some 0) = .error "ZeroDivisionError" :=
  ⟨by decide, C10_window_zero c10Node (by decide)⟩

/-! ### Claim C8 -/

/-- A neuron with one input weight and bias `1`, at rest. -/
def c8Node : SpikyNode := ⟨[1, 1], none, ⟨200, []⟩, []⟩

/-- C8: `set_weights` with a vector of the current length replaces the weights
wholesale — every entry but the last is coerced to its absolute value, the
last (the bias) is kept as is, and the rest of the neuron's state is
untouched; with a vector of any other length the neuron is left entirely
unchanged. -/
theorem C8_node_set_weights (n : SpikyNode) (v : List ℚ) :
    (v.length = n.weights.length →
      (n.set_weights v).weights.length = v.length ∧
      (∀ i, i + 1 < v.length →
        (n.set_weights v).weights[i]? = (v[i]?).map (fun x => |x|)) ∧
      (n.set_weights v).weights[v.length - 1]? = v[v.length - 1]? ∧
      (n.set_weights v).level = n.level ∧
      (n.set_weights v).firelog = n.firelog ∧
      (n.set_weights v).levels_log = n.levels_log) ∧
    (v.length ≠ n.weights.length → n.set_weights v = n) := by
  constructor
  · intro hlen
    have hne : ¬ (v.length ≠ n.weights.length) := by simp [hlen]
    have hsw : n.set_weights v = { n with weights := absAllButLast v } := by
      simp [SpikyNode.set_weights, hne]
    rw [hsw]
    exact ⟨absAllButLast_length v, fun i hi => absAllButLast_getElem?_of_lt v i hi,
      absAllButLast_getElem?_last v, rfl, rfl, rfl⟩
  · intro hne
    simp [SpikyNode.set_weights, hne]

/-- C8 witness: assigning `[-2, -3]` to a two-weight neuron stores `[2, -3]`
(the synaptic weight loses its sign, the bias keeps it); assigning a
three-entry vector leaves the neuron unchanged. -/
theorem C8_witness :
    ([(-2 : ℚ), -3].length = c8Node.weights.length) ∧
    (c8Node.set_weights [-2, -3]).weights[0]? = some (2 : ℚ) ∧
    (c8Node.set_weights [-2, -3]).weights[1]? = some ((-3 : ℚ)) ∧
    (c8Node.set_weights [5, 5, 5]) = c8Node := by
  have h := (C8_node_set_weights c8Node [-2, -3]).1 (by decide)
  have h2 := (C8_node_set_weights c8Node [5, 5, 5]).2 (by decide)
  refine ⟨by decide, ?_, ?_, h2⟩
  · have hi := h.2.1 0 (by decide)
    rw [hi]
    norm_num
  · have hl := h.2.2.1
    simpa using hl

/-! ### Claim C3 -/

/-- The contiguous slice `flat[i*size : i*size + size]` that
`SpikyLayer.set_weights` offers to node `i`. -/
def chunk (w : List ℚ) (size i : Nat) : List ℚ :=
  (w.drop (i * size)).take size

/-- A neuron with one input weight and bias `1`, at rest (layer fixture). -/
def c3Node : SpikyNode := ⟨[1, 1], none, ⟨200, []⟩, []⟩

/-- A one-neuron layer whose neuron holds two weights. -/
def c3Layer : SpikyLayer := ⟨[c3Node]⟩

/-- C3 counterexample: on a 1-neuron layer whose neuron has 2 weights, a flat
vector of length 3 should per the claim assign the neuron exactly
`3 // 1 = 3` weights; instead the per-neuron length check rejects the chunk
and the neuron keeps its 2 old weights. -/
theorem C3_counterexample :
    c3Layer.nodes.length = 1 ∧
    ([(5 : ℚ), 5, 5].length / c3Layer.nodes.length = 3) ∧
    (c3Layer.set_weights [5, 5, 5]).nodes[0]? = some c3Node ∧
    c3Node.weights.length ≠ 3 := by
  refine ⟨rfl, rfl, ?_, by decide⟩
  simp [c3Layer, c3Node, SpikyLayer.set_weights, SpikyNode.set_weights,
    List.enum, List.enumFrom]

/-- C3 (amended): on a layer with `n > 0` neurons and a flat vector of length
`m`, each neuron `i` is offered the contiguous chunk of `m / n` elements
starting at `i * (m / n)` (so the `m % n` trailing elements are dropped); the
chunk is actually stored — with all entries but its last coerced to absolute
value — only when `m / n` equals that neuron's current weight-vector length,
and otherwise the neuron is left unchanged; on a layer with zero neurons
`set_weights` is a no-op; the layer's node count never changes. -/
theorem C3_layer_set_weights (layer : SpikyLayer) (w : List ℚ) :
    (layer.nodes = [] → layer.set_weights w = layer) ∧
    (layer.set_weights w).nodes.length = layer.nodes.length ∧
    (∀ (i : Nat) (node : SpikyNode), layer.nodes[i]? = some node →
      (layer.set_weights w).nodes[i]? = some (
        if w.length / layer.nodes.length = node.weights.length then
          { node with weights := absAllButLast (chunk w (w.length / layer.nodes.length) i) }
        else node)) := by
  refine ⟨fun h => by simp [SpikyLayer.set_weights, h], ?_, ?_⟩
  · by_cases h : layer.nodes.isEmpty
    · simp [SpikyLayer.set_weights, h]
    · simp [SpikyLayer.set_weights, h]
  · intro i node hi
    have hlt : i < layer.nodes.length := by
      by_contra hge
      rw [List.getElem?_eq_none (by omega)] at hi
      exact Option.noConfusion hi
    have hemp : layer.nodes.isEmpty = false := by
      cases hn : layer.nodes with
      | nil => rw [hn] at hlt; simp at hlt
      | cons a t => simp
    simp only [SpikyLayer.set_weights, hemp, Bool.false_eq_true, if_false, chunk]
    rw [List.getElem?_map, List.getElem?_enum, hi]
    simp only [Option.map_some']
    congr 1
    set wpn := w.length / layer.nodes.length with hwpn
    have hmul : i * wpn + wpn ≤ w.length := by
      have h1 : (i + 1) * wpn ≤ layer.nodes.length * wpn :=
        Nat.mul_le_mul_right _ hlt
      have h2 : layer.nodes.length * wpn ≤ w.length := by
        rw [hwpn, Nat.mul_comm]
        exact Nat.div_mul_le_self _ _
      calc i * wpn + wpn = (i + 1) * wpn := by ring
        _ ≤ layer.nodes.length * wpn := h1
        _ ≤ w.length := h2
    have hslice : ((w.drop (i * wpn)).take wpn).length = wpn := by
      simp only [List.length_take, List.length_drop]
      omega
    simp only [SpikyNode.set_weights, hslice]
    by_cases hc : wpn = node.weights.length
    · simp [hc]
    · simp [hc]

/-- C3 witness: the amended theorem at a 1-neuron layer with a matching chunk:
`[-2, -3]` is distributed, stored as `[2, -3]`. -/
theorem C3_witness :
    (c3Layer.set_weights [-2, -3]).nodes[0]? =
      some { c3Node with weights := [2, -3] } := by
  have h := (C3_layer_set_weights c3Layer [-2, -3]).2.2 0 c3Node rfl
  rw [h]
  norm_num [c3Layer, c3Node, absAllButLast, chunk]

/-! ### Claim C9 -/

/-- A network with empty layers (their nodes play no role here). -/
def c9Net : SpikyNet := ⟨⟨[]⟩, ⟨[]⟩⟩

/-- A genome providing only the `output_layer` key. -/
def c9Genome : Genome := ⟨[("output_layer", [1])]⟩

/-- C9: `SpikyNet.set_weights` on a genome missing the `hidden_layer` or the
`output_layer` key propagates a fatal error (`KeyError`) to the caller instead
of absorbing it. -/
theorem C9_missing_key (net : SpikyNet) (g : Genome)
    (h : g.find "hidden_layer" = none ∨ g.find "output_layer" = none) :
    ∃ e, net.set_weights g = .error e := by
  rcases hh : g.find "hidden_layer" with _ | hv
  · exact ⟨"KeyError: hidden_layer", by simp [SpikyNet.set_weights, hh]⟩
  · rcases ho : g.find "output_layer" with _ | ov
    · exact ⟨"KeyError: output_layer", by simp [SpikyNet.set_weights, hh, ho]⟩
    · rcases h with h | h
      · rw [hh] at h
        exact absurd h (by simp)
      · rw [ho] at h
        exact absurd h (by simp)

/-- C9 witness: a genome with only the `output_layer` key makes
`set_weights` return an error. -/
theorem C9_witness :
    c9Genome.find "hidden_layer" = none ∧
    ∃ e, c9Net.set_weights c9Genome = .error e :=
  ⟨rfl, C9_missing_key c9Net c9Genome (Or.inl rfl)⟩

/-! ### Claim C7 -/

/-- A neuron whose firing history holds 50 ones followed by 100 zeros. -/
def c7Node : SpikyNode :=
  ⟨[1, 1], none, ⟨200, List.replicate 50 1 ++ List.replicate 100 0⟩, []⟩

/-- A neuron with the three-entry firing history `[1, 0, 1]`. -/
def c7bNode : SpikyNode := ⟨[1, 1], none, ⟨200, [1, 0, 1]⟩, []⟩

set_option maxRecDepth 4000 in
/-- C7 counterexample: with 150 stored entries (50 ones then 100 zeros),
`duty_cycle` called without a window uses the default window `100` — the last
100 entries, all zeros — and returns `0`, not the all-history fraction `1/3`
the claim requires for an unspecified window. -/
theorem C7_counterexample :
    c7Node.firelog.length = 150 ∧
    c7Node.duty_cycle_default = .ok 0 ∧
    (c7Node.firelog.get.count 1 : ℚ) / (c7Node.firelog.length : ℚ) = 1/3 ∧
    (0 : ℚ) ≠ 1/3 := by
  have h1 : c7Node.firelog.length = 150 := by
    simp [c7Node, RingBuffer.length]
  have hdrop : c7Node.firelog.get.drop 50 = List.replicate 100 0 := by
    show (List.replicate 50 1 ++ List.replicate 100 0).drop 50 = _
    rw [show (50 : Nat) = (List.replicate 50 (1 : Nat)).length by simp]
    exact List.drop_left _ _
  have h2 : (c7Node.firelog.get.drop 50).sum = 0 := by
    rw [hdrop]
    simp
  have h3 : c7Node.firelog.get.count 1 = 50 := by
    show (List.replicate 50 1 ++ List.replicate 100 0).count 1 = 50
    rw [List.count_append]
    simp [List.count_replicate]
  refine ⟨h1, ?_, ?_, by norm_num⟩
  · simp only [SpikyNode.duty_cycle_default, SpikyNode.duty_cycle, h1]
    norm_num [h2]
  · rw [h1, h3]
    norm_num

/-- C7 (amended): with a positive window `k` no larger than the stored
history, `duty_cycle` returns exactly (number of ones among the last `k`
entries) / `k`; a window exceeding the history, or a `None` window, uses all
available history divided by its length; an unspecified window defaults to
`100`, so it yields the all-history fraction only when at most 100 entries
are stored; with no history at all the result is `0`. -/
theorem C7_duty_cycle (n : SpikyNode)
    (hbin : ∀ x ∈ n.firelog.get, x = 0 ∨ x = 1) :
    (n.firelog.length = 0 → ∀ wnd, n.duty_cycle wnd = .ok 0) ∧
    (∀ k, 0 < k → k ≤ n.firelog.length →
      n.duty_cycle (some k) =
        .ok (((n.firelog.get.drop (n.firelog.length - k)).count 1 : ℚ) / (k : ℚ))) ∧
    (∀ k, n.firelog.length ≠ 0 → n.firelog.length < k →
      n.duty_cycle (some k) =
        .ok ((n.firelog.get.count 1 : ℚ) / (n.firelog.length : ℚ))) ∧
    (n.firelog.length ≠ 0 →
      n.duty_cycle none =
        .ok ((n.firelog.get.count 1 : ℚ) / (n.firelog.length : ℚ))) ∧
    (n.firelog.length ≠ 0 → n.firelog.length ≤ 100 →
      n.duty_cycle_default =
        .ok ((n.firelog.get.count 1 : ℚ) / (n.firelog.length : ℚ))) := by
  have hc2 : ∀ k, 0 < k → k ≤ n.firelog.length →
      n.duty_cycle (some k) =
        .ok (((n.firelog.get.drop (n.firelog.length - k)).count 1 : ℚ) / (k : ℚ)) := by
    intro k hk hkle
    have hne : n.firelog.length ≠ 0 := by omega
    have hsum : (n.firelog.get.drop (n.firelog.length - k)).sum =
        (n.firelog.get.drop (n.firelog.length - k)).count 1 :=
      sum_eq_count_one _ (fun x hx => hbin x (List.drop_subset _ _ hx))
    simp only [SpikyNode.duty_cycle, if_neg hne]
    rw [if_neg (by omega : ¬ (n.firelog.length < k))]
    rw [if_neg (by omega : ¬ (k = 0))]
    rw [hsum]
  have hc3 : ∀ k, n.firelog.length ≠ 0 → n.firelog.length < k →
      n.duty_cycle (some k) =
        .ok ((n.firelog.get.count 1 : ℚ) / (n.firelog.length : ℚ)) := by
    intro k hne hlt
    simp only [SpikyNode.duty_cycle, if_neg hne]
    rw [if_pos hlt, if_neg hne, Nat.sub_self, List.drop_zero,
      sum_eq_count_one _ hbin]
  refine ⟨?_, hc2, hc3, ?_, ?_⟩
  · intro h wnd
    simp [SpikyNode.duty_cycle, h]
  · intro hne
    simp only [SpikyNode.duty_cycle, if_neg hne]
    rw [Nat.sub_self, List.drop_zero, sum_eq_count_one _ hbin]
  · intro hne hle
    simp only [SpikyNode.duty_cycle_default]
    rcases Nat.lt_or_ge n.firelog.length 100 with hlt | hge
    · exact hc3 100 hne hlt
    · have h100 : n.firelog.length = 100 := by omega
      rw [hc2 100 (by omega) (by omega), h100, Nat.sub_self, List.drop_zero]
/-- C7 witness: the amended theorem at the history `[1, 0, 1]` with window
`2`: among the last two entries one is a `1`, so the duty cycle is `1/2`. -/
theorem C7_witness :
    c7bNode.duty_cycle (some 2) = .ok (1/2) := by
  have h := (C7_duty_cycle c7bNode (by decide)).2.1 2 (by decide) (by decide)
  have hc : (c7bNode.firelog.get.drop (c7bNode.firelog.length - 2)).count 1 = 1 := by
    decide
  rw [h, hc]
  norm_num

end SNN
